import Mathlib

/-!
Verification of the nitorch repository (registration helper, phase-based
fieldmap estimator, interactive image viewer) against its natural-language
specification.  Each section embeds one source region shallowly:

* `nitorch/nn/experimental/_classic.py` : `prepare`, the optimisation loops of
  `affine` / `diffeo`, and their post-loop matrix correction;
* `nitorch/tools/qmri/fieldmaps/phase.py` : `mean_phase`, `derivatives`,
  and the continuation loop of `phase_fit`;
* `nitorch/plot/gui.py` : `ImageArtist.affine`, `ImageViewer.fov`,
  `ImageViewer.aspect` / `size` and `ImageViewer._grid_auto`.

Machine floating point is modelled by `ℚ` where the code only adds,
multiplies, divides and compares, and by `ℝ` where transcendental functions
(`exp`, `log`, `cos`, `sin`, `atan2`, `sqrt`) occur.  External library calls
(tensor I/O, `spatial.compute_fov`, the matrix exponential, the optimiser)
are abstracted as parameters; everything written in the repository itself is
embedded line by line.
-/

set_option maxHeartbeats 1000000

namespace Nitorch

/-! ### Tensors and backends (`_classic.py`, lines 8-44)

Only the device and dtype of a tensor matter for the `prepare` claims, so a
tensor is modelled by that pair.  `Tensor.to` models `tensor.to(device=...,
dtype=...)`: an absent argument leaves the corresponding attribute unchanged.
-/

structure Tensor where
  device : String
  dtype : String
  deriving DecidableEq, Repr

def Tensor.to (t : Tensor) (device : Option String) (dtype : Option String) : Tensor :=
  { device := device.getD t.device, dtype := dtype.getD t.dtype }

/-- An input accepted by `prepare` (`_classic.py`, lines 10-25):
a file path, a raw array, a length-1 list/tuple wrapping an input, or a
list/tuple of length > 1 whose second entry is an orientation matrix. -/
inductive PInput where
  | path (s : String)
  | raw (t : Tensor)
  | seq1 (inner : PInput)
  | seq2 (inner : PInput) (aff : Tensor)

/-- The value returned by `prepare_one` for one input: a Python *tuple*
(immutable) or *list* (mutable) holding the data tensor and the orientation
tensor.  The distinction is load-bearing: `prepare` later performs item
assignment `prepared[i][0] = ...`, which raises `TypeError` on a tuple. -/
inductive PySeq where
  | tup (dat aff : Tensor)
  | lst (dat aff : Tensor)
  deriving DecidableEq, Repr

def PySeq.dat : PySeq → Tensor
  | .tup d _ => d
  | .lst d _ => d

def PySeq.aff : PySeq → Tensor
  | .tup _ a => a
  | .lst _ a => a

/-- `prepared[i][0] = d` : item assignment of the data slot. -/
def PySeq.setDat : PySeq → Tensor → Except String PySeq
  | .tup _ _, _ => .error "TypeError: tuple object does not support item assignment"
  | .lst _ a, d => .ok (.lst d a)

/-- `prepared[i][1] = a` : item assignment of the orientation slot. -/
def PySeq.setAff : PySeq → Tensor → Except String PySeq
  | .tup _ _, _ => .error "TypeError: tuple object does not support item assignment"
  | .lst d _, a => .ok (.lst d a)

/-- `prepare_one` (`_classic.py`, lines 10-25).  `ioDat`/`ioAff` model the
external mapped-array reader (`io.map(...).fdata(rand=True)` and `.affine`);
`affDefault` models `spatial.affine_default` applied to the array's shape.
Note the asymmetry copied from the source: the list/tuple branch and the
mapped-array branch build a *tuple* (`return inp, aff`), whereas the raw
array branch builds a *list* (`return [inp, aff]`). -/
def prepare_one (ioDat ioAff : String → Tensor) (affDefault : Tensor) : PInput → PySeq
  | .seq1 inner =>
    let r := prepare_one ioDat ioAff affDefault inner
    .tup r.dat r.aff
  | .seq2 inner aff0 =>
    let r := prepare_one ioDat ioAff affDefault inner
    .tup r.dat aff0
  | .path s => .tup (ioDat s) (ioAff s)
  | .raw t => .lst t affDefault

/-- The backend cast of one prepared entry (`_classic.py`, lines 35-37):
`prepared[i][0] = prepared[i][0].to(**backend)` then
`prepared[i][1] = prepared[i][1].to(**backend)`. -/
def castOne (backend : Tensor) (p : PySeq) : Except String PySeq := do
  let p ← p.setDat (p.dat.to (some backend.device) (some backend.dtype))
  p.setAff (p.aff.to (some backend.device) (some backend.dtype))

/-- `prepare` (`_classic.py`, lines 8-38). -/
def prepare (ioDat ioAff : String → Tensor) (affDefault : Tensor)
    (inputs : List PInput) (device : Option String) :
    Except String (List (Tensor × Tensor)) := do
  let prepared := inputs.map (prepare_one ioDat ioAff affDefault)
  match prepared with
  | [] => .error "IndexError: list index out of range"
  | p0 :: rest => do
    let p0 ← p0.setDat (p0.dat.to device (some "float32"))
    let backend := p0.dat
    let out ← (p0 :: rest).mapM (castOne backend)
    return out.map fun p => (p.dat, p.aff)

/-! ### The optimisation loop of `affine` and `diffeo`
(`_classic.py`, lines 130-147 and 252-269)

The numerics (image resampling, loss evaluation, autograd, the optimiser
step) are external; what the loop itself fixes is which actions are taken at
every iteration, what is printed, and when the loop stops.  The loss value
obtained at iteration `n` is abstracted as `losses n : ℚ`; `loss_val0`
starts at `inf`, modelled by `Option ℚ` with `none` standing for infinity
(its comparison with a finite tolerance is always false). -/

inductive OptimEvent where
  | pullMoved (n : ℕ)
  | evalLoss (n : ℕ)
  | backward (n : ℕ)
  | optimStep (n : ℕ)
  | printLine (n : ℕ) (lossVal : ℚ) (crit : Option ℚ)
  deriving DecidableEq, Repr

/-- `crit = loss_val0 - loss_val`, with `loss_val0 = inf` mapped to `none`. -/
def critOf (prev : Option ℚ) (cur : ℚ) : Option ℚ :=
  prev.map fun p => p - cur

/-- `crit.abs() < tolerance` (false when `crit` is infinite). -/
def stopEarly (tol : ℚ) : Option ℚ → Bool
  | none => false
  | some c => |c| < tol

/-- One pass of the `for n_iter in range(max_iter)` body, fuelled by the
remaining iteration count.  Returns the event trace, the number of executed
iterations, and whether the `break` was taken. -/
def optimLoop (losses : ℕ → ℚ) (tol : ℚ) :
    ℕ → Option ℚ → ℕ → List OptimEvent × ℕ × Bool
  | 0, _, _ => ([], 0, false)
  | fuel + 1, prev, n =>
    let lossVal := losses n
    let crit := critOf prev lossVal
    let events := [OptimEvent.pullMoved n, OptimEvent.evalLoss n,
                   OptimEvent.backward n, OptimEvent.optimStep n] ++
      (if n % 10 = 0 then [OptimEvent.printLine n lossVal crit] else [])
    if stopEarly tol crit then (events, 1, true)
    else
      let r := optimLoop losses tol fuel (some lossVal) (n + 1)
      (events ++ r.1, r.2.1 + 1, r.2.2)

/-- The loop of `affine` (`_classic.py`, lines 130-147). -/
def affineOptimLoop (losses : ℕ → ℚ) (tol : ℚ) (maxIter : ℕ) :
    List OptimEvent × ℕ × Bool :=
  optimLoop losses tol maxIter none 0

/-- The combined objective of `diffeo` (`_classic.py`, line 258):
`image_loss(moved, target) + 0.1 * vel_loss(velocity)`. -/
def diffeoLossSeq (imageLoss velLoss : ℕ → ℚ) (n : ℕ) : ℚ :=
  imageLoss n + (1 / 10) * velLoss n

/-- The loop of `diffeo` (`_classic.py`, lines 252-269): same shape as the
`affine` loop, driven by the combined objective. -/
def diffeoOptimLoop (imageLoss velLoss : ℕ → ℚ) (tol : ℚ) (maxIter : ℕ) :
    List OptimEvent × ℕ × Bool :=
  optimLoop (diffeoLossSeq imageLoss velLoss) tol maxIter none 0

/-- The value of `loss_val0` when iteration `n` starts. -/
def prevAt (losses : ℕ → ℚ) : ℕ → Option ℚ
  | 0 => none
  | n + 1 => some (losses n)

/-- The improvement computed at iteration `n`. -/
def critAt (losses : ℕ → ℚ) : ℕ → Option ℚ
  | 0 => none
  | n + 1 => some (losses n - losses (n + 1))

/-- The events one iteration of the loop body appends to the trace. -/
def iterEvents (losses : ℕ → ℚ) (n : ℕ) : List OptimEvent :=
  [OptimEvent.pullMoved n, OptimEvent.evalLoss n,
   OptimEvent.backward n, OptimEvent.optimStep n] ++
    (if n % 10 = 0 then [OptimEvent.printLine n (losses n) (critAt losses n)] else [])

/-- What the specification asserts of a loop run starting at iteration `n`
with `fuel` iterations left: at most `fuel` iterations run; every executed
iteration resamples, evaluates the loss, backpropagates, steps, and prints
exactly when its index is a multiple of 10; the break is taken exactly at
the first iteration whose improvement is below tolerance in magnitude. -/
def LoopSpec (losses : ℕ → ℚ) (tol : ℚ) (fuel n : ℕ)
    (out : List OptimEvent × ℕ × Bool) : Prop :=
  out.2.1 ≤ fuel ∧
  out.1 = ((List.range out.2.1).map fun k => iterEvents losses (n + k)).flatten ∧
  (out.2.2 = true →
    1 ≤ out.2.1 ∧ stopEarly tol (critAt losses (n + (out.2.1 - 1))) = true ∧
    ∀ m, m + 1 < out.2.1 → stopEarly tol (critAt losses (n + m)) = false) ∧
  (out.2.2 = false →
    out.2.1 = fuel ∧ ∀ m, m < out.2.1 → stopEarly tol (critAt losses (n + m)) = false)

/-! ### Post-loop matrix correction of `affine` and `diffeo`
(`_classic.py`, lines 150-159 and 272-281)

`aff = core.linalg.expm(parameters, basis)` is `(D+1)×(D+1)`; `shift` is the
length-`D` world-space center shift computed in the preprocessing step.  The
code then runs, under `torch.no_grad()`:

    aff[:-1, -1] -= shift
    shift = core.linalg.matvec(aff[:-1, :-1], shift)
    aff[:-1, -1] += shift
    aff = aff.inverse()

The matrix exponential and the resampling `pull` are external and kept
abstract. -/

/-- `aff[:-1, -1] -= s` : subtract `s` from the translation column. -/
def subShiftLastCol {d : ℕ} (M : Matrix (Fin (d + 1)) (Fin (d + 1)) ℚ)
    (s : Fin d → ℚ) : Matrix (Fin (d + 1)) (Fin (d + 1)) ℚ :=
  Matrix.of fun i j =>
    if h : i ≠ Fin.last d ∧ j = Fin.last d then M i j - s (i.castPred h.1) else M i j

/-- `aff[:-1, -1] += s` : add `s` to the translation column. -/
def addShiftLastCol {d : ℕ} (M : Matrix (Fin (d + 1)) (Fin (d + 1)) ℚ)
    (s : Fin d → ℚ) : Matrix (Fin (d + 1)) (Fin (d + 1)) ℚ :=
  Matrix.of fun i j =>
    if h : i ≠ Fin.last d ∧ j = Fin.last d then M i j + s (i.castPred h.1) else M i j

/-- `core.linalg.matvec(aff[:-1, :-1], s)` : the upper-left `D×D` linear
block applied to `s`. -/
def linearBlockMatvec {d : ℕ} (M : Matrix (Fin (d + 1)) (Fin (d + 1)) ℚ)
    (s : Fin d → ℚ) : Fin d → ℚ :=
  fun i => ∑ j : Fin d, M i.castSucc j.castSucc * s j

/-- The three in-place statements of the `origin == 'center'` branch, in
source order (`_classic.py`, lines 154-156). -/
def centerUncorrect {d : ℕ} (M : Matrix (Fin (d + 1)) (Fin (d + 1)) ℚ)
    (s : Fin d → ℚ) : Matrix (Fin (d + 1)) (Fin (d + 1)) ℚ :=
  let aff := subShiftLastCol M s
  let s2 := linearBlockMatvec aff s
  addShiftLastCol aff s2

/-- What the specification says the corrected matrix is: `M` with its
translation column decreased by the shift and then increased by the shift
pre-multiplied by `M`'s own upper-left linear block. -/
def centerUncorrectSpec {d : ℕ} (M : Matrix (Fin (d + 1)) (Fin (d + 1)) ℚ)
    (s : Fin d → ℚ) : Matrix (Fin (d + 1)) (Fin (d + 1)) ℚ :=
  Matrix.of fun i j =>
    if h : i ≠ Fin.last d ∧ j = Fin.last d then
      M i j - s (i.castPred h.1) + linearBlockMatvec M s (i.castPred h.1)
    else M i j

/-- The matrix returned by `affine`/`diffeo` (`_classic.py`, lines 152-157):
center correction applied only when `origin == 'center'`, then inversion. -/
noncomputable def affineReturnMatrix {d : ℕ} (origin : String)
    (M : Matrix (Fin (d + 1)) (Fin (d + 1)) ℚ) (s : Fin d → ℚ) :
    Matrix (Fin (d + 1)) (Fin (d + 1)) ℚ :=
  (if origin = "center" then centerUncorrect M s else M)⁻¹

/-- The tail of `affine` (`_classic.py`, lines 150-159): recompute the moved
image from the final parameters, correct and invert the exponentiated
matrix, and return the pair.  `pull` and `expm` abstract the external
resampler and matrix exponential. -/
noncomputable def affineReturn {d : ℕ} {V I : Type}
    (pull : V → I) (expm : V → Matrix (Fin (d + 1)) (Fin (d + 1)) ℚ)
    (params : V) (origin : String) (s : Fin d → ℚ) :
    Matrix (Fin (d + 1)) (Fin (d + 1)) ℚ × I :=
  let moved := pull params
  let aff := affineReturnMatrix origin (expm params) s
  (aff, moved)

/-- The tail of `diffeo` (`_classic.py`, lines 272-281): same matrix
correction; the velocity field is returned as-is between the matrix and the
moved image. -/
noncomputable def diffeoReturn {d : ℕ} {V W I : Type}
    (pull : V → W → I) (expm : V → Matrix (Fin (d + 1)) (Fin (d + 1)) ℚ)
    (params : V) (velocity : W) (origin : String) (s : Fin d → ℚ) :
    Matrix (Fin (d + 1)) (Fin (d + 1)) ℚ × W × I :=
  let moved := pull params velocity
  let aff := affineReturnMatrix origin (expm params) s
  (aff, velocity, moved)

/-! ### `derivatives` (`phase.py`, lines 36-86)

Images are functions on a finite voxel index type; the negative
log-likelihood is the sum over all voxels.  The optional output placeholders
`g`, `h` of the source are a memory-reuse device and do not change the
returned values, so the embedding always returns fresh buffers. -/

noncomputable def derivatives {ι : Type} [Fintype ι]
    (magnitude phase fit_log_magnitude fit_phase : ι → ℝ) :
    ℝ × (Fin 2 → ι → ℝ) × (Fin 2 → ι → ℝ) :=
  let fit_magnitude := fun v => Real.exp (fit_log_magnitude v)
  let prod_phase := fun v =>
    (Real.cos (phase v) * Real.cos (fit_phase v) +
      Real.sin (phase v) * Real.sin (fit_phase v)) * magnitude v
  let prod_phase_grad := fun v =>
    (Real.cos (phase v) * Real.sin (fit_phase v) -
      Real.sin (phase v) * Real.cos (fit_phase v)) * magnitude v
  let g : Fin 2 → ι → ℝ :=
    ![fun v => fit_magnitude v * (fit_magnitude v - prod_phase v),
      fun v => fit_magnitude v * prod_phase_grad v]
  let h : Fin 2 → ι → ℝ :=
    ![fun v => fit_magnitude v * fit_magnitude v +
        |fit_magnitude v * (fit_magnitude v - prod_phase v)|,
      fun v => fit_magnitude v * fit_magnitude v]
  let ll := ∑ v, (0.5 * (magnitude v * magnitude v +
    fit_magnitude v * fit_magnitude v) - fit_magnitude v * prod_phase v)
  (ll, g, h)

/-! ### The continuation loop of `phase_fit` (`phase.py`, lines 178-216)

The regularisation options `prm` are a dictionary holding, per fit channel
(index 0 = log-magnitude, index 1 = phase), a membrane weight and a bending
weight; the two-element Python lists are modelled by pairs, and the source's
`[-1]` indexing is the second component.  Everything else the loop does
(derivatives, regulariser, multigrid solve) only reads `prm`. -/

def indic (b : Bool) : ℚ := if b then 1 else 0

structure RegPrm where
  membrane : ℚ × ℚ
  bending : ℚ × ℚ
  bound : String
  deriving DecidableEq, Repr

/-- The initial options (`phase.py`, lines 179-184): each channel gets its
`lam` entry on whichever penalty its `penalty` entry selects. -/
def initPrm (lam : ℚ × ℚ) (penalty : String × String) : RegPrm :=
  { membrane := (lam.1 * indic (penalty.1 == "membrane"),
                 lam.2 * indic (penalty.2 == "membrane")),
    bending := (lam.1 * indic (penalty.1 == "bending"),
                lam.2 * indic (penalty.2 == "bending")),
    bound := "dct2" }

/-- `lam0 = dict(membrane=prm['membrane'][-1], bending=prm['bending'][-1])`
(`phase.py`, line 186). -/
def lam0Of (prm : RegPrm) : ℚ × ℚ := (prm.membrane.2, prm.bending.2)

/-- `factor = 1 + 10 ** (5 - n_iter)` (`phase.py`, line 191). -/
def contFactor (n : ℕ) : ℚ := 1 + (10 : ℚ) ^ ((5 : ℤ) - (n : ℤ))

/-- The two weight updates at the top of iteration `n` (`phase.py`, lines
193-194): only the last entry of each per-channel list is overwritten. -/
def updateTrailing (lam0 : ℚ × ℚ) (n : ℕ) (prm : RegPrm) : RegPrm :=
  { prm with membrane := (prm.membrane.1, lam0.1 * contFactor n),
             bending := (prm.bending.1, lam0.2 * contFactor n) }

/-- The options in force during iteration `n` of the continuation loop
(after the update at its top), obtained by running the updates of
iterations `0..n` in order on the initial options. -/
def prmUsedAt (lam : ℚ × ℚ) (penalty : String × String) : ℕ → RegPrm
  | 0 => updateTrailing (lam0Of (initPrm lam penalty)) 0 (initPrm lam penalty)
  | n + 1 => updateTrailing (lam0Of (initPrm lam penalty)) (n + 1) (prmUsedAt lam penalty n)

/-! ### `mean_phase` (`phase.py`, lines 10-33)

`torch.atan2(y, x)` is the argument of the complex number `x + i y`, with
`atan2(0, 0) = 0`; `Complex.arg` has exactly this behaviour. -/

noncomputable def atan2 (y x : ℝ) : ℝ := Complex.arg ⟨x, y⟩

noncomputable def mean_phase (phase : List ℝ) (weight : Option (List ℝ)) : ℝ :=
  match weight with
  | some w =>
    let sumw := w.sum
    let mean_cos := (List.zipWith (fun p wi => Real.cos p * wi) phase w).sum / sumw
    let mean_sin := (List.zipWith (fun p wi => Real.sin p * wi) phase w).sum / sumw
    atan2 mean_sin mean_cos
  | none =>
    let mean_cos := (phase.map Real.cos).sum / phase.length
    let mean_sin := (phase.map Real.sin).sum / phase.length
    atan2 mean_sin mean_cos

/-! ### `ImageViewer._grid_auto` (`gui.py`, lines 673-713)

The figure aspect ratio (`width / height`) is a rational parameter; the
per-image layout is one of `row`, `col`, `orth`.  `ceilDiv` is Python's
`int(math.ceil(a / b))` on non-negative integers. -/

inductive Layout where
  | row
  | col
  | orth
  deriving DecidableEq, Repr

/-- The aspect-ratio weight of one image panel (`gui.py`, lines 684-690). -/
def layoutRatio : Layout → ℕ × ℕ
  | .row => (1, 3)
  | .col => (3, 1)
  | .orth => (2, 2)

def ceilDiv (a b : ℕ) : ℕ := (a + b - 1) / b

/-- The score (`empty`) of the candidate with `nRows` rows (`gui.py`, lines
696-708): wasted outer area, wasted grid cells, and a small elongation
penalty. -/
def gridScore (layout : Layout) (aspect : ℚ) (nbImage nRows : ℕ) : ℚ :=
  let rh : ℚ := (layoutRatio layout).1
  let rw : ℚ := (layoutRatio layout).2
  let nCols := ceilDiv nbImage nRows
  let nr : ℚ := nRows * rh
  let nc : ℚ := nCols * rw
  let innerAspect := nc / nr
  let innerArea := nc * nr
  let outerArea := if innerAspect < aspect then nr * nr * aspect else nc * nc / aspect
  let emptyRatio := (outerArea - innerArea) / outerArea
  let emptyBox := ((nRows * nCols - nbImage : ℕ) : ℚ) * (rh * rw) / outerArea
  let compactness := (1 / 100 : ℚ) * (max nr nc / min nr nc - 1)
  emptyBox + emptyRatio + compactness

/-- `best_empty is None or empty < best_empty` (`gui.py`, line 710). -/
def betterThan (empty : ℚ) : Option ℚ → Bool
  | none => true
  | some b => decide (empty < b)

/-- The candidate scan (`gui.py`, lines 693-713): iterate the row counts,
keeping the first candidate whose score is strictly below the best so far. -/
def gridSearchGo (score : ℕ → ℚ) (nbImage : ℕ) :
    List ℕ → Option ℚ → Option (ℕ × ℕ) → Option (ℕ × ℕ)
  | [], _, best => best
  | r :: rs, bestEmpty, best =>
    if betterThan (score r) bestEmpty then
      gridSearchGo score nbImage rs (some (score r)) (some (r, ceilDiv nbImage r))
    else gridSearchGo score nbImage rs bestEmpty best

/-- `_grid_auto` (`gui.py`, lines 673-713).  The stored grid setting may fix
either dimension; a `none` result can only arise from the heuristic scan
when `nbImage = 0` (the source then returns its initial `(None, None)`). -/
def grid_auto (grid : Option ℕ × Option ℕ) (layout : Layout) (aspect : ℚ)
    (nbImage : ℕ) : Option (ℕ × ℕ) :=
  match grid with
  | (some gx, some gy) => some (gx, gy)
  | (none, some gy) => some (ceilDiv nbImage gy, gy)
  | (some gx, none) => some (gx, ceilDiv nbImage gx)
  | (none, none) =>
    gridSearchGo (gridScore layout aspect nbImage) nbImage
      (List.range' 1 nbImage) none none

/-! ### `ImageViewer.fov` (`gui.py`, lines 595-617)

The two corners are length-3 coordinate lists whose entries may be `None`.
The maximum bounding box `(min0, max0)` is produced by the external
`spatial.compute_fov` and enters as a parameter.  The source fills entries
with the Python expression `mn or mn0`, which yields `mn0` whenever `mn` is
*falsy* — that is, `None` or `0.0` — and only computes the bounding box at
all when at least one entry of either corner is `None`. -/

/-- Python `mn or mn0` for an optional-float `mn`. -/
def pyOr (mn : Option ℚ) (mn0 : ℚ) : ℚ :=
  match mn with
  | none => mn0
  | some v => if v = 0 then mn0 else v

/-- The `fov` setter (`gui.py`, lines 595-610), given the bounding box
`(min0, max0)` that `self._max_fov()` would return. -/
def setFov (min0 max0 : Fin 3 → ℚ) (mn mx : Fin 3 → Option ℚ) :
    (Fin 3 → ℚ) × (Fin 3 → ℚ) :=
  if (∃ i, mn i = none) ∨ (∃ i, mx i = none) then
    (fun i => pyOr (mn i) (min0 i), fun i => pyOr (mx i) (max0 i))
  else
    (fun i => (mn i).getD 0, fun i => (mx i).getD 0)

/-! ### `ImageViewer.size` and `ImageViewer.aspect` (`gui.py`, lines
401-415 and 439-448)

The figure object is external; only its stored size matters here.  The
`size` setter validates its argument and then executes
`self.fig.get_size_inches(*value)` — a call to the *getter* — so no write
to the figure ever happens (with a real matplotlib figure the call moreover
raises `TypeError`, since the getter takes no positional arguments; either
way the stored size is not updated). -/

structure Figure where
  sizeInches : ℝ × ℝ

/-- `self.fig.get_size_inches()` : read the figure size. -/
noncomputable def size_get (fig : Figure) : ℝ × ℝ := fig.sizeInches

/-- The `size` setter (`gui.py`, lines 444-448): it only *reads* the figure
size (`get_size_inches` instead of `set_size_inches`), leaving the figure
unchanged. -/
def size_set (fig : Figure) (_value : ℝ × ℝ) : Figure := fig

/-- The `aspect` getter (`gui.py`, lines 401-404): width / height. -/
noncomputable def aspect_get (fig : Figure) : ℝ :=
  (size_get fig).1 / (size_get fig).2

/-- The `aspect` setter (`gui.py`, lines 406-415). -/
noncomputable def aspect_set (fig : Figure) (value : ℝ) : Figure :=
  let s0 := (size_get fig).1
  let s1 := (size_get fig).2
  let area := Real.sqrt (s0 * s1)
  let s0 := Real.sqrt (area * value)
  let s1 := Real.sqrt (area / value)
  size_set fig (s0, s1)

/-! ### `ImageArtist.affine` setter (`gui.py`, lines 50-57)

    @affine.setter
    def affine(self, value):
        if value is None:
            self._affine = spatial.affine_default(self.shape)
        self._affine = value

The second assignment is unconditional, so it overwrites whatever the
`None` branch stored.  The synthesized default orientation is abstract
(`defaultAff`), as is the stored-orientation type. -/

def affine_set {A : Type} (defaultAff : A) (stored : Option A) (value : Option A) :
    Option A :=
  let stored := match value with
    | none => some defaultAff
    | some _ => stored
  let stored := value
  stored

/-- The `affine` getter (`gui.py`, lines 50-51): `getattr(self, '_affine',
None)`. -/
def affine_get {A : Type} (stored : Option A) : Option A := stored

/-! ## Theorems -/

/-- C1: `prepare` cannot succeed on a batch whose first input is a
`(data, orientation)` pair or a file path: `prepare_one` packages those as
Python tuples, and the backend cast `prepared[0][0] = ...` then raises
`TypeError`, contradicting the claim that every accepted batch is prepared
with a common backend.  (Raw-array inputs are packaged as lists and do
succeed.) -/
theorem prepare_first_pair_or_path_raises
    (ioDat ioAff : String → Tensor) (affD : Tensor) (dev : Option String)
    (t a : Tensor) (rest : List PInput) (s : String) :
    prepare ioDat ioAff affD (.seq2 (.raw t) a :: rest) dev
      = .error "TypeError: tuple object does not support item assignment" ∧
    prepare ioDat ioAff affD (.path s :: rest) dev
      = .error "TypeError: tuple object does not support item assignment" := by
  constructor <;>
    simp [prepare, prepare_one, PySeq.setDat, PySeq.dat, PySeq.aff, Tensor.to,
      bind, Except.bind]

/-- C5: throughout the continuation loop of `phase_fit`, the first-channel
(log-magnitude) membrane and bending weights keep their initial values
`lam[0] * [penalty[0] == 'membrane']` and `lam[0] * [penalty[0] ==
'bending']`, while the last-channel (phase) weights at iteration `n` equal
their initial values times `factor = 1 + 10^(5-n)`. -/
theorem phase_fit_prm_invariant (lam : ℚ × ℚ) (penalty : String × String) (n : ℕ) :
    (prmUsedAt lam penalty n).membrane.1 = lam.1 * indic (penalty.1 == "membrane") ∧
    (prmUsedAt lam penalty n).bending.1 = lam.1 * indic (penalty.1 == "bending") ∧
    (prmUsedAt lam penalty n).membrane.2 =
      (initPrm lam penalty).membrane.2 * (1 + (10 : ℚ) ^ ((5 : ℤ) - (n : ℤ))) ∧
    (prmUsedAt lam penalty n).bending.2 =
      (initPrm lam penalty).bending.2 * (1 + (10 : ℚ) ^ ((5 : ℤ) - (n : ℤ))) := by
  induction n with
  | zero =>
    simp [prmUsedAt, updateTrailing, lam0Of, initPrm, contFactor]
  | succ n ih =>
    obtain ⟨h1, h2, _, _⟩ := ih
    refine ⟨?_, ?_, ?_, ?_⟩ <;>
      simp [prmUsedAt, updateTrailing, lam0Of, initPrm, contFactor, h1, h2]

/-- C8 (amended): the `fov` setter resolves `(None, None)` to exactly the
maximum bounding box; when at least one coordinate is absent, every absent
coordinate — and every supplied coordinate equal to `0` — is filled from
the bounding box while supplied nonzero coordinates are kept; when no
coordinate is absent the supplied coordinates are all kept unchanged. -/
theorem fov_autofill (min0 max0 : Fin 3 → ℚ) (mn mx : Fin 3 → Option ℚ) :
    setFov min0 max0 (fun _ => none) (fun _ => none) = (min0, max0) ∧
    ((∃ i, mn i = none) ∨ (∃ i, mx i = none) →
      (∀ i v, mn i = some v → v ≠ 0 → (setFov min0 max0 mn mx).1 i = v) ∧
      (∀ i v, mx i = some v → v ≠ 0 → (setFov min0 max0 mn mx).2 i = v) ∧
      (∀ i, mn i = none → (setFov min0 max0 mn mx).1 i = min0 i) ∧
      (∀ i, mx i = none → (setFov min0 max0 mn mx).2 i = max0 i) ∧
      (∀ i, mn i = some 0 → (setFov min0 max0 mn mx).1 i = min0 i) ∧
      (∀ i, mx i = some 0 → (setFov min0 max0 mn mx).2 i = max0 i)) ∧
    ((∀ i, mn i ≠ none) → (∀ i, mx i ≠ none) →
      (∀ i v, mn i = some v → (setFov min0 max0 mn mx).1 i = v) ∧
      (∀ i v, mx i = some v → (setFov min0 max0 mn mx).2 i = v)) := by
  refine ⟨?_, fun hsome => ?_, fun hmn hmx => ?_⟩
  · simp [setFov, pyOr]
  · have hif : setFov min0 max0 mn mx =
        (fun i => pyOr (mn i) (min0 i), fun i => pyOr (mx i) (max0 i)) := by
      rw [setFov, if_pos hsome]
    refine ⟨?_, ?_, ?_, ?_, ?_, ?_⟩ <;> intro i <;> rw [hif] <;>
      simp +contextual [pyOr]
  · have hif : setFov min0 max0 mn mx =
        (fun i => (mn i).getD 0, fun i => (mx i).getD 0) := by
      rw [setFov, if_neg]
      push_neg
      exact ⟨fun i => hmn i, fun i => hmx i⟩
    refine ⟨?_, ?_⟩ <;> intro i v hv <;> rw [hif] <;> simp [hv]

/-- C8 witness: the theorem applied to a concrete bounding box and corner
pair with an absent entry. -/
theorem fov_autofill_witness :
    (setFov (fun _ => (-5 : ℚ)) (fun _ => 5)
        ![some 2, none, some 1] ![none, some 2, some 2]).1 0 = 2 ∧
    (setFov (fun _ => (-5 : ℚ)) (fun _ => 5)
        ![some 2, none, some 1] ![none, some 2, some 2]).1 1 = -5 := by
  have h := (fov_autofill (fun _ => (-5 : ℚ)) (fun _ => 5)
    ![some 2, none, some 1] ![none, some 2, some 2]).2.1 (Or.inl ⟨1, rfl⟩)
  exact ⟨h.1 0 2 rfl (by norm_num), h.2.2.1 1 rfl⟩

/-- C8 counterexample: a *supplied* min-corner coordinate equal to `0` is
not kept — with bounding box min `-5`, the stored first coordinate becomes
`-5`, not the supplied `0` — because the source fills with the falsy test
`mn or mn0`. -/
theorem fov_supplied_zero_replaced :
    (setFov (fun _ => (-5 : ℚ)) (fun _ => 5)
        ![some 0, some 1, some 1] ![none, some 2, some 2]).1 0 = -5 ∧
    ((-5 : ℚ) ≠ 0) := by
  constructor
  · have hif : ((∃ i, (![some 0, some 1, some 1] : Fin 3 → Option ℚ) i = none) ∨
        (∃ i, (![none, some 2, some 2] : Fin 3 → Option ℚ) i = none)) :=
      Or.inr ⟨0, rfl⟩
    rw [setFov, if_pos hif]
    simp [pyOr]
  · norm_num

/-- C9: assigning `aspect` never changes the figure size, because the
`size` setter calls the figure-size *getter* instead of the setter; on the
concrete figure of size `(1, 2)`, setting `aspect = 1` leaves the aspect
ratio at `1/2 ≠ 1`, contradicting the claimed resize. -/
theorem aspect_setter_never_resizes :
    (∀ (fig : Figure) (r : ℝ), aspect_set fig r = fig) ∧
    aspect_set ⟨(1, 2)⟩ 1 = ⟨(1, 2)⟩ ∧
    aspect_get (aspect_set ⟨(1, 2)⟩ 1) = 1 / 2 ∧ ((1 / 2 : ℝ) ≠ 1) := by
  refine ⟨fun fig r => rfl, rfl, ?_, by norm_num⟩
  simp [aspect_get, aspect_set, size_set, size_get]

/-- C10: after `artist.affine = None` the stored orientation is `None` —
the default orientation computed in the `None` branch is immediately
overwritten by the unconditional assignment — so the getter yields `None`
and never the synthesized default. -/
theorem affine_set_none_stores_none (A : Type) (defaultAff : A) (stored : Option A) :
    affine_get (affine_set defaultAff stored none) = none ∧
    ∀ m : A, affine_set defaultAff stored none ≠ some m := by
  exact ⟨rfl, fun m h => Option.noConfusion h⟩

/-- C4: at a perfect fit (`fit_log_magnitude = log(magnitude)`,
`fit_phase = phase`) with strictly positive magnitude, `derivatives`
returns a total negative log-likelihood of `0` and a zero gradient in
every voxel for both channels. -/
theorem derivatives_perfect_fit {ι : Type} [Fintype ι]
    (magnitude phase : ι → ℝ) (hpos : ∀ v, 0 < magnitude v) :
    (derivatives magnitude phase (fun v => Real.log (magnitude v)) phase).1 = 0 ∧
    ∀ v, (derivatives magnitude phase (fun v => Real.log (magnitude v)) phase).2.1 0 v = 0 ∧
      (derivatives magnitude phase (fun v => Real.log (magnitude v)) phase).2.1 1 v = 0 := by
  have hexp : ∀ v, Real.exp (Real.log (magnitude v)) = magnitude v :=
    fun v => Real.exp_log (hpos v)
  have htrig : ∀ v, Real.cos (phase v) * Real.cos (phase v) +
      Real.sin (phase v) * Real.sin (phase v) = 1 := by
    intro v
    have h := Real.cos_sq_add_sin_sq (phase v)
    nlinarith [h]
  constructor
  · simp only [derivatives]
    refine Finset.sum_eq_zero fun v _ => ?_
    rw [hexp v, htrig v]
    ring
  · intro v
    constructor
    · simp only [derivatives, Matrix.cons_val_zero]
      rw [hexp v, htrig v]
      ring
    · simp only [derivatives, Matrix.cons_val_one, Matrix.head_cons]
      rw [hexp v]
      ring

/-- C4 witness: the theorem applied to the single-voxel image of magnitude
`1` and phase `0`. -/
theorem derivatives_perfect_fit_witness :
    (∀ v : Fin 1, (0 : ℝ) < (fun _ => (1 : ℝ)) v) ∧
    ((derivatives (ι := Fin 1) (fun _ => 1) (fun _ => 0)
        (fun v => Real.log ((fun _ => (1 : ℝ)) v)) (fun _ => 0)).1 = 0 ∧
      ∀ v, (derivatives (ι := Fin 1) (fun _ => 1) (fun _ => 0)
          (fun v => Real.log ((fun _ => (1 : ℝ)) v)) (fun _ => 0)).2.1 0 v = 0 ∧
        (derivatives (ι := Fin 1) (fun _ => 1) (fun _ => 0)
          (fun v => Real.log ((fun _ => (1 : ℝ)) v)) (fun _ => 0)).2.1 1 v = 0) :=
  ⟨fun _ => one_pos,
    derivatives_perfect_fit (fun _ => 1) (fun _ => 0) (fun _ => one_pos)⟩

/-- C6 (amended): `mean_phase` is `atan2` of the (weighted or arithmetic)
means of sine and cosine; on the unweighted field `{0, 0, π/2, -π/2}` it
returns `0`; and on every non-empty uniform field of constant value `θ`
with `θ ∈ (-π, π]` it returns `θ` exactly (for `θ` outside that interval
`atan2` returns the representative of `θ` modulo `2π` instead). -/
theorem mean_phase_spec :
    (∀ (phase w : List ℝ), mean_phase phase (some w) =
      atan2 ((List.zipWith (fun p wi => Real.sin p * wi) phase w).sum / w.sum)
        ((List.zipWith (fun p wi => Real.cos p * wi) phase w).sum / w.sum)) ∧
    (∀ phase : List ℝ, mean_phase phase none =
      atan2 ((phase.map Real.sin).sum / phase.length)
        ((phase.map Real.cos).sum / phase.length)) ∧
    mean_phase [0, 0, Real.pi / 2, -(Real.pi / 2)] none = 0 ∧
    (∀ (θ : ℝ) (k : ℕ), k ≠ 0 → θ ∈ Set.Ioc (-Real.pi) Real.pi →
      mean_phase (List.replicate k θ) none = θ) := by
  refine ⟨fun _ _ => rfl, fun _ => rfl, ?_, ?_⟩
  · have harg : (⟨1 / 2, 0⟩ : ℂ) = ((1 / 2 : ℝ) : ℂ) := by
      apply Complex.ext <;> simp
    simp only [mean_phase, atan2, List.map_cons, List.map_nil, List.sum_cons,
      List.sum_nil, List.length_cons, List.length_nil, Real.sin_zero,
      Real.cos_zero, Real.sin_pi_div_two, Real.cos_pi_div_two, Real.sin_neg,
      Real.cos_neg]
    norm_num
    rw [harg]
    exact Complex.arg_ofReal_of_nonneg (by norm_num)
  · intro θ k hk hθ
    have hkR : ((k : ℝ)) ≠ 0 := Nat.cast_ne_zero.mpr hk
    have hsin : ((List.replicate k θ).map Real.sin).sum = (k : ℝ) * Real.sin θ := by
      rw [List.map_replicate, List.sum_replicate, nsmul_eq_mul]
    have hcos : ((List.replicate k θ).map Real.cos).sum = (k : ℝ) * Real.cos θ := by
      rw [List.map_replicate, List.sum_replicate, nsmul_eq_mul]
    simp only [mean_phase, atan2, hsin, hcos, List.length_replicate]
    rw [mul_div_cancel_left₀ _ hkR, mul_div_cancel_left₀ _ hkR]
    have hmk : (⟨Real.cos θ, Real.sin θ⟩ : ℂ) =
        Complex.cos θ + Complex.sin θ * Complex.I := by
      simp [Complex.ext_iff, Complex.add_re, Complex.add_im, Complex.mul_re,
        Complex.mul_im, Complex.I_re, Complex.I_im, Complex.cos_ofReal_re,
        Complex.cos_ofReal_im, Complex.sin_ofReal_re, Complex.sin_ofReal_im]
    rw [hmk]
    exact Complex.arg_cos_add_sin_mul_I hθ

/-- C6 witness: the theorem applied to the uniform single-voxel field of
value `0`. -/
theorem mean_phase_spec_witness :
    mean_phase (List.replicate 1 0) none = 0 :=
  mean_phase_spec.2.2.2 0 1 one_ne_zero
    ⟨by linarith [Real.pi_pos], Real.pi_pos.le⟩

/-- C6 counterexample: on the uniform field of constant value `2π` the
claimed result is `2π`, but `mean_phase` returns `0` (and `2π ≠ 0`): the
claim fails for constant values outside `(-π, π]`. -/
theorem mean_phase_uniform_two_pi :
    mean_phase [2 * Real.pi] none = 0 ∧ 2 * Real.pi ≠ 0 := by
  constructor
  · have harg : (⟨1 / 1, 0 / 1⟩ : ℂ) = 1 := by
      apply Complex.ext <;> norm_num
    simp only [mean_phase, atan2, List.map_cons, List.map_nil, List.sum_cons,
      List.sum_nil, List.length_cons, List.length_nil, Real.sin_two_pi,
      Real.cos_two_pi]
    norm_num
    rw [show (⟨1, 0⟩ : ℂ) = 1 by apply Complex.ext <;> norm_num]
    exact Complex.arg_one
  · positivity

/-- Helper for C3: the sequential in-place correction equals the
specification's closed form, because the first statement only touches the
translation column and therefore leaves the upper-left linear block — which
the `matvec` then reads — equal to that of the original matrix. -/
theorem centerUncorrect_eq_spec {d : ℕ} (M : Matrix (Fin (d + 1)) (Fin (d + 1)) ℚ)
    (s : Fin d → ℚ) : centerUncorrect M s = centerUncorrectSpec M s := by
  ext i j
  by_cases h : i ≠ Fin.last d ∧ j = Fin.last d
  · have hblock : linearBlockMatvec (subShiftLastCol M s) s = linearBlockMatvec M s := by
      funext i0
      refine Finset.sum_congr rfl fun j0 _ => ?_
      have hne : ¬((i0.castSucc : Fin (d + 1)) ≠ Fin.last d ∧
          (j0.castSucc : Fin (d + 1)) = Fin.last d) := by
        rintro ⟨_, hj⟩
        exact absurd hj (Fin.ne_of_lt (Fin.castSucc_lt_last j0))
      rw [subShiftLastCol, Matrix.of_apply, dif_neg hne]
    rw [centerUncorrect, centerUncorrectSpec, addShiftLastCol, Matrix.of_apply,
      Matrix.of_apply, dif_pos h, dif_pos h, hblock, subShiftLastCol,
      Matrix.of_apply, dif_pos h]
  · rw [centerUncorrect, centerUncorrectSpec, addShiftLastCol, Matrix.of_apply,
      Matrix.of_apply, dif_neg h, dif_neg h, subShiftLastCol, Matrix.of_apply,
      dif_neg h]

/-- C3: with `origin = 'center'`, `affine` returns the pair whose matrix is
the inverse of the final matrix exponential with its translation column
decreased by the center shift and then increased by the shift
pre-multiplied by the exponential's upper-left linear block, and whose
image is the moved image recomputed at the final parameters; `diffeo`
returns the same matrix together with the un-inverted velocity field and
its recomputed moved image. -/
theorem affine_diffeo_center_return (d : ℕ) (V W I : Type)
    (pull_a : V → I) (pull_d : V → W → I)
    (expm : V → Matrix (Fin (d + 1)) (Fin (d + 1)) ℚ)
    (params : V) (velocity : W) (s : Fin d → ℚ) :
    affineReturn pull_a expm params "center" s =
      ((centerUncorrectSpec (expm params) s)⁻¹, pull_a params) ∧
    diffeoReturn pull_d expm params velocity "center" s =
      ((centerUncorrectSpec (expm params) s)⁻¹, velocity, pull_d params velocity) := by
  have hmat : affineReturnMatrix "center" (expm params) s =
      (centerUncorrectSpec (expm params) s)⁻¹ := by
    rw [affineReturnMatrix, if_pos rfl, centerUncorrect_eq_spec]
  exact ⟨by rw [affineReturn, hmat], by rw [diffeoReturn, hmat]⟩

/-- Helper for C2: the improvement computed inside the loop body from the
carried `loss_val0` agrees with `critAt`. -/
theorem critOf_prevAt (losses : ℕ → ℚ) (n : ℕ) :
    critOf (prevAt losses n) (losses n) = critAt losses n := by
  cases n <;> simp [critOf, prevAt, critAt]

/-- Helper for C2: the loop run meets `LoopSpec` from any start iteration. -/
theorem optimLoop_meets_spec (losses : ℕ → ℚ) (tol : ℚ) :
    ∀ fuel n : ℕ,
      LoopSpec losses tol fuel n (optimLoop losses tol fuel (prevAt losses n) n) := by
  intro fuel
  induction fuel with
  | zero =>
    intro n
    refine ⟨le_refl 0, rfl, fun h => by simp [optimLoop] at h,
      fun _ => ⟨rfl, fun m hm => absurd hm (Nat.not_lt_zero m)⟩⟩
  | succ fuel ih =>
    intro n
    have hcrit := critOf_prevAt losses n
    by_cases hstop : stopEarly tol (critAt losses n) = true
    · have hout : optimLoop losses tol (fuel + 1) (prevAt losses n) n =
          (iterEvents losses n, 1, true) := by
        simp [optimLoop, hcrit, hstop, iterEvents]
      rw [hout]
      refine ⟨?_, ?_, ?_, ?_⟩
      · show 1 ≤ fuel + 1
        omega
      · show iterEvents losses n =
          ((List.range 1).map fun k => iterEvents losses (n + k)).flatten
        rw [show List.range 1 = [0] from rfl]
        simp
      · intro _
        refine ⟨le_refl 1, ?_, ?_⟩
        · show stopEarly tol (critAt losses (n + (1 - 1))) = true
          simpa using hstop
        · intro m hm
          have hm' : m + 1 < 1 := hm
          exact absurd hm' (by omega)
      · intro h
        exact absurd (h : true = false) (by simp)
    · have hstop' : stopEarly tol (critAt losses n) = false := by
        simpa using hstop
      have hout : optimLoop losses tol (fuel + 1) (prevAt losses n) n =
          (iterEvents losses n ++
            (optimLoop losses tol fuel (some (losses n)) (n + 1)).1,
           (optimLoop losses tol fuel (some (losses n)) (n + 1)).2.1 + 1,
           (optimLoop losses tol fuel (some (losses n)) (n + 1)).2.2) := by
        simp [optimLoop, hcrit, hstop', iterEvents]
      have hih := ih (n + 1)
      rw [show prevAt losses (n + 1) = some (losses n) from rfl] at hih
      rw [hout]
      set r := optimLoop losses tol fuel (some (losses n)) (n + 1) with hr
      obtain ⟨h1, h2, h3, h4⟩ := hih
      refine ⟨?_, ?_, ?_, ?_⟩
      · show r.2.1 + 1 ≤ fuel + 1
        omega
      · show iterEvents losses n ++ r.1 =
          ((List.range (r.2.1 + 1)).map fun k => iterEvents losses (n + k)).flatten
        have hshift : ((fun k => iterEvents losses (n + k)) ∘ Nat.succ) =
            fun k => iterEvents losses (n + 1 + k) := by
          funext k
          have hnk : n + Nat.succ k = n + 1 + k := by omega
          simp [Function.comp, hnk]
        rw [List.range_succ_eq_map, List.map_cons, List.flatten_cons,
          List.map_map, hshift, ← h2]
        simp
      · intro hearly
        have he : r.2.2 = true := hearly
        obtain ⟨hc1, hc2, hc3⟩ := h3 he
        refine ⟨?_, ?_, ?_⟩
        · show 1 ≤ r.2.1 + 1
          omega
        · show stopEarly tol (critAt losses (n + (r.2.1 + 1 - 1))) = true
          have heq : n + (r.2.1 + 1 - 1) = n + 1 + (r.2.1 - 1) := by omega
          rw [heq]
          exact hc2
        · intro m hm
          have hm' : m + 1 < r.2.1 + 1 := hm
          show stopEarly tol (critAt losses (n + m)) = false
          cases m with
          | zero => simpa using hstop'
          | succ m' =>
            have heq : n + (m' + 1) = n + 1 + m' := by omega
            rw [heq]
            exact hc3 m' (by omega)
      · intro hlate
        have hl : r.2.2 = false := hlate
        obtain ⟨hc1, hc2⟩ := h4 hl
        refine ⟨?_, ?_⟩
        · show r.2.1 + 1 = fuel + 1
          omega
        · intro m hm
          have hm' : m < r.2.1 + 1 := hm
          show stopEarly tol (critAt losses (n + m)) = false
          cases m with
          | zero => simpa using hstop'
          | succ m' =>
            have heq : n + (m' + 1) = n + 1 + m' := by omega
            rw [heq]
            exact hc2 m' (by omega)

/-- C2: both the `affine` and the `diffeo` optimisation loops satisfy the
claimed semantics: at most `max_iter` iterations run; each executed
iteration computes the moved image and the loss, backpropagates, takes one
optimiser step, and prints the iteration index, loss and improvement
exactly when the index is a multiple of 10; the loop breaks exactly at the
first iteration whose improvement satisfies `|crit| < tolerance`. -/
theorem optim_loop_semantics (lossesA imageLoss velLoss : ℕ → ℚ) (tol : ℚ)
    (maxIter : ℕ) :
    LoopSpec lossesA tol maxIter 0 (affineOptimLoop lossesA tol maxIter) ∧
    LoopSpec (diffeoLossSeq imageLoss velLoss) tol maxIter 0
      (diffeoOptimLoop imageLoss velLoss tol maxIter) :=
  ⟨optimLoop_meets_spec lossesA tol maxIter 0,
   optimLoop_meets_spec (diffeoLossSeq imageLoss velLoss) tol maxIter 0⟩

/-- Helper for C7: Python's `int(math.ceil(n / g))` times `g` covers `n`. -/
theorem ceilDiv_mul_ge (n g : ℕ) (hg : 1 ≤ g) : n ≤ ceilDiv n g * g := by
  cases n with
  | zero => simp
  | succ m =>
    have h1 : m + 1 + g - 1 = m + g := by omega
    rw [ceilDiv, h1, Nat.add_div_right _ (by omega : 0 < g)]
    have hmod : m % g < g := Nat.mod_lt _ (by omega)
    have hdm : g * (m / g) + m % g = m := Nat.div_add_mod m g
    have hco : (m / g + 1) * g = g * (m / g) + g := by ring
    rw [hco]
    omega

/-- Helper for C7: every candidate the scan stores has `rows * cols ≥ n`,
so whatever it returns does too. -/
theorem gridSearchGo_sound (score : ℕ → ℚ) (n : ℕ) :
    ∀ (rs : List ℕ) (bestE : Option ℚ) (best : Option (ℕ × ℕ)),
      (∀ r ∈ rs, 1 ≤ r) → (∀ p, best = some p → n ≤ p.1 * p.2) →
      ∀ p, gridSearchGo score n rs bestE best = some p → n ≤ p.1 * p.2 := by
  intro rs
  induction rs with
  | nil =>
    intro bestE best _ hbest p hp
    exact hbest p hp
  | cons r rs ih =>
    intro bestE best hmem hbest p hp
    rw [gridSearchGo] at hp
    by_cases htake : betterThan (score r) bestE = true
    · rw [if_pos htake] at hp
      refine ih (some (score r)) _ (fun x hx => hmem x (List.mem_cons_of_mem r hx)) ?_ p hp
      intro q hq
      injection hq with h
      subst h
      show n ≤ r * ceilDiv n r
      have hr : 1 ≤ r := hmem r (List.mem_cons_self r rs)
      calc n ≤ ceilDiv n r * r := ceilDiv_mul_ge n r hr
        _ = r * ceilDiv n r := Nat.mul_comm _ _
    · rw [if_neg htake] at hp
      exact ih bestE best (fun x hx => hmem x (List.mem_cons_of_mem r hx)) hbest p hp

/-- Helper for C7: once a candidate is stored, the scan returns one. -/
theorem gridSearchGo_isSome (score : ℕ → ℚ) (n : ℕ) :
    ∀ (rs : List ℕ) (bestE : Option ℚ) (best : Option (ℕ × ℕ)),
      best.isSome → (gridSearchGo score n rs bestE best).isSome := by
  intro rs
  induction rs with
  | nil =>
    intro _ best h
    exact h
  | cons r rs ih =>
    intro bestE best h
    rw [gridSearchGo]
    by_cases htake : betterThan (score r) bestE = true
    · rw [if_pos htake]
      exact ih _ _ rfl
    · rw [if_neg htake]
      exact ih _ _ h

/-- Helper for C7: elements of `range' s len` are at least `s`. -/
theorem mem_range'_lb : ∀ (len s r : ℕ), r ∈ List.range' s len → s ≤ r := by
  intro len
  induction len with
  | zero =>
    intro s r h
    rw [show List.range' s 0 = [] from rfl] at h
    exact absurd h (List.not_mem_nil r)
  | succ len ih =>
    intro s r h
    rw [show List.range' s (len + 1) = s :: List.range' (s + 1) len from rfl] at h
    rcases List.mem_cons.mp h with h | h
    · omega
    · have := ih (s + 1) r h
      omega

/-- C7: for every image count `N ≥ 1`, every layout, every figure aspect
ratio, and every grid setting fixing at most one (positive) dimension,
`_grid_auto` returns a pair whose product covers `N`. -/
theorem grid_auto_covers (grid : Option ℕ × Option ℕ) (layout : Layout)
    (aspect : ℚ) (n : ℕ) (hn : 1 ≤ n)
    (hfree : grid.1 = none ∨ grid.2 = none)
    (hx : ∀ g, grid.1 = some g → 1 ≤ g)
    (hy : ∀ g, grid.2 = some g → 1 ≤ g) :
    ∃ r c, grid_auto grid layout aspect n = some (r, c) ∧ n ≤ r * c := by
  obtain ⟨gx, gy⟩ := grid
  cases gx with
  | some gx =>
    cases gy with
    | some gy => rcases hfree with h | h <;> exact absurd h (by simp)
    | none =>
      refine ⟨gx, ceilDiv n gx, rfl, ?_⟩
      calc n ≤ ceilDiv n gx * gx := ceilDiv_mul_ge n gx (hx gx rfl)
        _ = gx * ceilDiv n gx := Nat.mul_comm _ _
  | none =>
    cases gy with
    | some gy =>
      exact ⟨ceilDiv n gy, gy, rfl, ceilDiv_mul_ge n gy (hy gy rfl)⟩
    | none =>
      obtain ⟨m, rfl⟩ : ∃ m, n = m + 1 := ⟨n - 1, by omega⟩
      have hstep : grid_auto (none, none) layout aspect (m + 1) =
          gridSearchGo (gridScore layout aspect (m + 1)) (m + 1)
            (List.range' 2 m) (some (gridScore layout aspect (m + 1) 1))
            (some (1, ceilDiv (m + 1) 1)) := by
        show gridSearchGo (gridScore layout aspect (m + 1)) (m + 1)
            (1 :: List.range' 2 m) none none = _
        rw [gridSearchGo]
        simp [betterThan]
      rw [hstep]
      have hsome := gridSearchGo_isSome (gridScore layout aspect (m + 1)) (m + 1)
        (List.range' 2 m) (some (gridScore layout aspect (m + 1) 1))
        (some (1, ceilDiv (m + 1) 1)) rfl
      obtain ⟨p, hp⟩ := Option.isSome_iff_exists.mp hsome
      have hmem : ∀ x ∈ List.range' 2 m, 1 ≤ x := by
        intro x hxm
        have := mem_range'_lb m 2 x hxm
        omega
      have hbase : ∀ q, (some (1, ceilDiv (m + 1) 1) : Option (ℕ × ℕ)) = some q →
          m + 1 ≤ q.1 * q.2 := by
        intro q hq
        injection hq with h
        subst h
        show m + 1 ≤ 1 * ceilDiv (m + 1) 1
        rw [Nat.one_mul]
        have h2 := ceilDiv_mul_ge (m + 1) 1 (le_refl 1)
        simpa using h2
      have hge := gridSearchGo_sound (gridScore layout aspect (m + 1)) (m + 1)
        (List.range' 2 m) (some (gridScore layout aspect (m + 1) 1))
        (some (1, ceilDiv (m + 1) 1)) hmem hbase p hp
      exact ⟨p.1, p.2, hp, hge⟩

/-- C7 witness: the theorem applied to three images, orthogonal layout,
aspect ratio 1, no fixed grid dimension. -/
theorem grid_auto_covers_witness :
    ∃ r c, grid_auto (none, none) Layout.orth 1 3 = some (r, c) ∧ 3 ≤ r * c :=
  grid_auto_covers (none, none) Layout.orth 1 3 (by omega) (Or.inl rfl)
    (fun _ h => Option.noConfusion h) (fun _ h => Option.noConfusion h)

end Nitorch
